import Mathlib

/-!
Verification of the LimeSDR transmit-test programs' core algorithms:
frequency planning (NCO/mixer), waveform generation (constant tone,
two-tone, noise, rotating tone), the gain ramp, the noise PRNG, and the
streaming/cleanup control flow.  All machine arithmetic is embedded over
`ℚ`/`ℤ`/`ℕ` with explicit rounding and 16-bit wrap operations.
-/

/-! ## Numeric helpers: C rounding and conversion semantics -/

/-- C `lrint`/`lrintf` under the default rounding mode: round to nearest,
ties to even. -/
def lrint (x : ℚ) : ℤ :=
  if x - ⌊x⌋ < 1/2 then ⌊x⌋
  else if 1/2 < x - ⌊x⌋ then ⌊x⌋ + 1
  else if ⌊x⌋ % 2 = 0 then ⌊x⌋ else ⌊x⌋ + 1

/-- C `llround`: round to nearest, ties away from zero. -/
def llround (x : ℚ) : ℤ :=
  if x < 0 then -⌊-x + 1/2⌋ else ⌊x + 1/2⌋

/-- C floating-point to integer conversion: truncation toward zero. -/
def ctrunc (x : ℚ) : ℤ :=
  if x < 0 then ⌈x⌉ else ⌊x⌋

/-- Conversion of an integer to `int16_t`: wrap modulo 2^16 into
[-32768, 32767] (two's complement). -/
def toInt16 (z : ℤ) : ℤ :=
  (z + 32768) % 65536 - 32768

/-- `clampi` from tx_sine_nco.c: clamp an integer into [lo, hi]. -/
def clampi (v lo hi : ℤ) : ℤ :=
  if v < lo then lo else if v > hi then hi else v

theorem toInt16_eq_self {z : ℤ} (h1 : -32768 ≤ z) (h2 : z ≤ 32767) :
    toInt16 z = z := by
  unfold toInt16
  rw [Int.emod_eq_of_lt (by omega) (by omega)]
  omega

theorem lrint_le {x : ℚ} {b : ℤ} (h : x ≤ (b : ℚ)) : lrint x ≤ b := by
  unfold lrint
  have hfq : (⌊x⌋ : ℚ) ≤ x := Int.floor_le x
  have hfl : ⌊x⌋ ≤ b := by exact_mod_cast hfq.trans h
  split
  · exact hfl
  · split
    · rename_i h1 h2
      have hx : (⌊x⌋ : ℚ) + 1/2 < x := by linarith
      have hlt : (⌊x⌋ : ℚ) < (b : ℚ) := by linarith
      have : ⌊x⌋ < b := by exact_mod_cast hlt
      omega
    · split
      · exact hfl
      · rename_i h1 h2 h3
        have hx : (⌊x⌋ : ℚ) + 1/2 ≤ x := by linarith
        have hlt : (⌊x⌋ : ℚ) < (b : ℚ) := by linarith
        have : ⌊x⌋ < b := by exact_mod_cast hlt
        omega

theorem le_lrint {x : ℚ} {b : ℤ} (h : (b : ℚ) ≤ x) : b ≤ lrint x := by
  unfold lrint
  have hfl : b ≤ ⌊x⌋ := Int.le_floor.mpr (by exact_mod_cast h)
  split
  · exact hfl
  · split
    · omega
    · split
      · exact hfl
      · omega

/-! ## Frequency planner (`set_rf` from lime_test.c, `rf_hz` from tx_carrier.c) -/

/-- The fixed local-oscillator frequency `LO_HZ` (30 MHz) of lime_test.c. -/
def LO_HZ : ℚ := 30000000

/-- Result of the mixer planner: NCO frequency magnitude and direction. -/
structure MixerPlan where
  mixerHz : ℚ
  downconvert : Bool
deriving DecidableEq, Repr

/-- `set_rf` from lime_test.c: program the NCO so that RF = LO - NCO
(downconvert when `LO - rf ≥ 0`).  Returns `none` (the C function returns
-1 and makes no NCO device call) when `|LO - rf|` exceeds
`rf_sr/2 - 1`. -/
def set_rf (rf_sr rf_hz lo_hz : ℚ) : Option MixerPlan :=
  let nco := lo_hz - rf_hz
  let nco_max := rf_sr / 2 - 1
  if |nco| > nco_max then none
  else some ⟨|nco|, decide (0 ≤ nco)⟩

/-- NCO-programming device calls made by `set_rf`. -/
inductive NcoCall where
  | setNCOFrequency (freq : ℚ)
  | setNCOIndex (index : ℕ) (downconvert : Bool)
deriving DecidableEq, Repr

/-- The sequence of NCO device calls issued by `set_rf` (lime_test.c):
empty when the range check fails, otherwise the frequency write followed
by the index/direction write. -/
def set_rf_calls (rf_sr rf_hz lo_hz : ℚ) : List NcoCall :=
  let nco := lo_hz - rf_hz
  let nco_max := rf_sr / 2 - 1
  if |nco| > nco_max then []
  else [NcoCall.setNCOFrequency |nco|, NcoCall.setNCOIndex 0 (decide (0 ≤ nco))]

/-- Effective RF frequency from LO, mixer magnitude and direction
(tx_carrier.c: `rf_hz = NCO_DOWNCONVERT ? (LO_HZ - NCO_FREQ_HZ) : (LO_HZ + NCO_FREQ_HZ)`). -/
def effectiveRf (lo_hz mixer_hz : ℚ) (downconvert : Bool) : ℚ :=
  if downconvert then lo_hz - mixer_hz else lo_hz + mixer_hz

/-- C1: for every `loHz` and `rfTargetHz` whose difference is within the
allowed mixer range, the planner succeeds with `mixerHz = |loHz - rfTargetHz|`
and `downconvert = (loHz ≥ rfTargetHz)`, and `effectiveRf` inverts it exactly
(hence within any relative tolerance, in particular 1e-6). -/
theorem planMixer_effectiveRf_roundTrip (rf_sr rf lo : ℚ)
    (h : |lo - rf| ≤ rf_sr / 2 - 1) :
    set_rf rf_sr rf lo = some ⟨|lo - rf|, decide (0 ≤ lo - rf)⟩ ∧
    effectiveRf lo |lo - rf| (decide (0 ≤ lo - rf)) = rf := by
  constructor
  · unfold set_rf
    rw [if_neg (not_lt.mpr h)]
  · unfold effectiveRf
    by_cases hc : 0 ≤ lo - rf
    · rw [if_pos (by simpa using hc), abs_of_nonneg hc]
      ring
    · rw [if_neg (by simpa using hc), abs_of_neg (not_le.mp hc)]
      ring

/-- Witness for C1: `loHz = 30 MHz`, `rfTargetHz = 15 MHz`,
`rf_sr = 40 Msps` (ceiling 20 MHz - 1 Hz) round-trips to exactly 15 MHz. -/
theorem planMixer_effectiveRf_roundTrip_witness :
    |(30000000 : ℚ) - 15000000| ≤ 40000000 / 2 - 1 ∧
    (set_rf 40000000 15000000 30000000 =
        some ⟨|(30000000 : ℚ) - 15000000|, decide ((0:ℚ) ≤ 30000000 - 15000000)⟩ ∧
      effectiveRf 30000000 |(30000000 : ℚ) - 15000000|
        (decide ((0:ℚ) ≤ 30000000 - 15000000)) = 15000000) :=
  ⟨by norm_num,
   planMixer_effectiveRf_roundTrip 40000000 15000000 30000000 (by norm_num)⟩

/-- C2: whenever the requested mixer magnitude `|loHz - rfTargetHz|` exceeds
the ceiling `rf_sr/2 - 1`, `set_rf` reports failure (`none`) and issues no
NCO device call at all. -/
theorem set_rf_out_of_range_no_calls (rf_sr rf lo : ℚ)
    (h : rf_sr / 2 - 1 < |lo - rf|) :
    set_rf rf_sr rf lo = none ∧ set_rf_calls rf_sr rf lo = [] := by
  constructor
  · unfold set_rf
    rw [if_pos h]
  · unfold set_rf_calls
    rw [if_pos h]

/-- Witness for C2: `loHz = 30 MHz`, `rfTargetHz = 5 MHz`, RF sample rate
40 Msps (mixer ceiling just under 20 MHz): the planner fails and performs
no mixer programming. -/
theorem set_rf_out_of_range_no_calls_witness :
    (40000000 : ℚ) / 2 - 1 < |LO_HZ - 5000000| ∧
    (set_rf 40000000 5000000 LO_HZ = none ∧
      set_rf_calls 40000000 5000000 LO_HZ = []) :=
  ⟨by norm_num [LO_HZ],
   set_rf_out_of_range_no_calls 40000000 5000000 LO_HZ (by norm_num [LO_HZ])⟩

/-! ## Constant-tone buffers (tx_carrier.c and lime_test.c MODE_TONE) -/

/-- tx_carrier.c line 181: `I = (int16_t)(TONE_SCALE * 32767.0)` — a plain
C cast, i.e. truncation toward zero. -/
def txCarrier_I (tone_scale : ℚ) : ℤ := ctrunc (tone_scale * 32767)

/-- tx_carrier.c lines 183-186: the constant-tone buffer, every sample
`(I, 0)`. -/
def txCarrier_tone_buf (tone_scale : ℚ) (n : ℕ) : List (ℤ × ℤ) :=
  List.replicate n (txCarrier_I tone_scale, 0)

/-- lime_test.c MODE_TONE line 250: `I = (int16_t)lrint(amp_fs * 32767.0)` —
round to nearest, then an `int16_t` cast (wraps modulo 2^16 if out of
range). -/
def limeTest_tone_I (amp_fs : ℚ) : ℤ := toInt16 (lrint (amp_fs * 32767))

/-- lime_test.c MODE_TONE line 252: the constant-tone buffer, every sample
`(I, 0)`. -/
def limeTest_tone_buf (amp_fs : ℚ) (n : ℕ) : List (ℤ × ℤ) :=
  List.replicate n (limeTest_tone_I amp_fs, 0)

/-- C3, counterexample: with amplitude 0.70 the tx_carrier.c constant-tone
buffer (cited by the claim) stores `I = 22936`, not `22937`: the C cast
truncates `0.70 × 32767 = 22936.9` instead of rounding to nearest. -/
theorem txCarrier_tone_I_ne_22937 :
    txCarrier_tone_buf (7/10) 1 = [(22936, 0)] ∧ ((22936 : ℤ) ≠ 22937) := by
  constructor
  · norm_num [txCarrier_tone_buf, txCarrier_I, ctrunc]
  · decide

/-- C3, amended: with `loHz = 30 MHz`, `mixerHz = 15 MHz`,
`downconvert = true` the effective RF is exactly 15 MHz; with amplitude
0.70 every sample of the lime_test.c MODE_TONE buffer is
`I = 22937 = round(0.70 × 32767), Q = 0`, while tx_carrier.c computes its
constant `I` by truncation, so its buffer holds `I = 22936, Q = 0`. -/
theorem constant_tone_scenario (n : ℕ) :
    effectiveRf 30000000 15000000 true = 15000000 ∧
    limeTest_tone_buf (7/10) n = List.replicate n ((22937 : ℤ), (0 : ℤ)) ∧
    txCarrier_tone_buf (7/10) n = List.replicate n ((22936 : ℤ), (0 : ℤ)) := by
  refine ⟨by norm_num [effectiveRf], ?_, ?_⟩
  · unfold limeTest_tone_buf
    have h : limeTest_tone_I (7/10) = 22937 := by
      norm_num [limeTest_tone_I, lrint, toInt16]
    rw [h]
  · unfold txCarrier_tone_buf
    have h : txCarrier_I (7/10) = 22936 := by
      norm_num [txCarrier_I, ctrunc]
    rw [h]

/-! ## Amplitude configuration (C8): tx_ssb2.c rotator and lime_test.c sweep -/

/-- `TONE_SCALE_DEFAULT` (0.70) from tx_realtime_from_python.c. -/
def TONE_SCALE_DEFAULT : ℚ := 7/10

/-- tx_realtime_from_python.c line 435:
`AMP = (int16_t)(TONE_SCALE_DEFAULT * 32767.0)`.  The parsed
`--tone-scale` value `TONE_SCALE` is in scope but the expression uses the
compile-time default, so the amplitude actually transmitted does not
depend on the configured value. -/
def ssb2_AMP (TONE_SCALE : ℚ) : ℤ := ctrunc (TONE_SCALE_DEFAULT * 32767)

/-- lime_test.c MODE_SWEEP line 276: `I = (int16_t)lrint(0.70 * 32767.0)` —
the literal `0.70` is used although the configured `amp_fs` is in scope. -/
def limeTest_sweep_I (amp_fs : ℚ) : ℤ := toInt16 (lrint ((7/10) * 32767))

/-- C8 (code bug): the rotating-tone amplitude of tx_ssb2.c and the sweep
amplitude of lime_test.c are constants that ignore the configured
amplitude fraction: for every pair of configured values the generated
amplitude is identical, and with `--tone-scale 0.30` the peak is 22936
(70 % FS) instead of `round(0.30 × 32767) = 9830`. -/
theorem amplitude_ignores_configuration :
    (∀ a b : ℚ, ssb2_AMP a = ssb2_AMP b ∧ limeTest_sweep_I a = limeTest_sweep_I b) ∧
    ssb2_AMP (3/10) = 22936 ∧
    limeTest_sweep_I (3/10) = 22937 ∧
    lrint ((3/10) * 32767) = 9830 ∧
    ssb2_AMP (3/10) ≠ lrint ((3/10) * 32767) := by
  have h1 : ssb2_AMP (3/10) = 22936 := by
    norm_num [ssb2_AMP, TONE_SCALE_DEFAULT, ctrunc]
  have h2 : lrint ((3/10) * 32767) = 9830 := by norm_num [lrint]
  have h3 : limeTest_sweep_I (3/10) = 22937 := by
    norm_num [limeTest_sweep_I, lrint, toInt16]
  refine ⟨fun a b => ⟨rfl, rfl⟩, h1, h3, h2, ?_⟩
  rw [h1, h2]
  decide

/-! ## Noise generator PRNG (lime_test.c `xorshift32`, `fill_noise_iq`) -/

/-- First statement of `xorshift32`: `x ^= x << 13` in `uint32_t`. -/
def xs13 (x : ℕ) : ℕ := x ^^^ ((x <<< 13) % 2 ^ 32)

/-- Second statement of `xorshift32`: `x ^= x >> 17`. -/
def xs17 (x : ℕ) : ℕ := x ^^^ (x >>> 17)

/-- Third statement of `xorshift32`: `x ^= x << 5` in `uint32_t`. -/
def xs5 (x : ℕ) : ℕ := x ^^^ ((x <<< 5) % 2 ^ 32)

/-- `xorshift32` from lime_test.c: the Marsaglia (13, 17, 5) xorshift on a
32-bit state. -/
def xorshift32 (x : ℕ) : ℕ := xs5 (xs17 (xs13 x))

/-- The two fixed channel seeds of `fill_noise_iq`. -/
def NOISE_SEED1 : ℕ := 0x12345678

def NOISE_SEED2 : ℕ := 0x87654321

/-- One stored noise channel value from `fill_noise_iq`:
`(int16_t)lrintf(amp * fi * 32767.0f)` with
`fi = ((int32_t)(s & 0xFFFF) - 32768) / 32768.0f` for an updated state `s`. -/
def noiseSample (amp : ℚ) (s : ℕ) : ℤ :=
  toInt16 (lrint (amp * ((((s &&& 65535 : ℕ) : ℚ) - 32768) / 32768) * 32767))

/-- `fill_noise_iq` from lime_test.c: per sample, advance both xorshift
states, then store the scaled channel values.  Returns the samples and the
final `(s1, s2)` state (the C statics). -/
def fill_noise_iq (amp : ℚ) : ℕ → ℕ × ℕ → List (ℤ × ℤ) × (ℕ × ℕ)
  | 0, s => ([], s)
  | n + 1, (s1, s2) =>
    let s1n := xorshift32 s1
    let s2n := xorshift32 s2
    let rest := fill_noise_iq amp n (s1n, s2n)
    ((noiseSample amp s1n, noiseSample amp s2n) :: rest.1, rest.2)

/-- C saturation of an integer into the `int16_t` range (what the spec's
"rounded and saturated" semantics prescribes for storage). -/
def csat16 (z : ℤ) : ℤ :=
  if z < -32768 then -32768 else if 32767 < z then 32767 else z

/-- Modelled from the spec: the noise channel value under the spec's
numeric semantics — "final I/Q values are rounded (round-to-nearest) and
saturated to the 16-bit signed range before storage". -/
def noiseSample_saturated (amp : ℚ) (s : ℕ) : ℤ :=
  csat16 (lrint (amp * ((((s &&& 65535 : ℕ) : ℚ) - 32768) / 32768) * 32767))

/-- Modelled from the spec: `fill_noise_iq` with saturating storage. -/
def fill_noise_iq_saturated (amp : ℚ) : ℕ → ℕ × ℕ → List (ℤ × ℤ) × (ℕ × ℕ)
  | 0, s => ([], s)
  | n + 1, (s1, s2) =>
    let s1n := xorshift32 s1
    let s2n := xorshift32 s2
    let rest := fill_noise_iq_saturated amp n (s1n, s2n)
    ((noiseSample_saturated amp s1n, noiseSample_saturated amp s2n) :: rest.1, rest.2)

/-! ## Two-tone generator (lime_test.c `fill_two_tone_iq`) -/

/-- The double-precision value of `2*M_PI` used by the phase wrap in
`fill_two_tone_iq`. -/
def twoPiDouble : ℚ := 884279719003555 / 140737488355328

/-- `fill_two_tone_iq` from lime_test.c, parameterized by the library sine
function `sinq` (an arbitrary function; libm guarantees `|sin x| ≤ 1`):
`s = a*sin(ph1) + a*sin(ph2)` with `a = amp * 0.5`, stored as
`(int16_t)lrintf(s * 32767.0f)` on I and `0` on Q, phases advanced by
`w1`, `w2` and wrapped at `2π`. -/
def fill_two_tone_iq (sinq : ℚ → ℚ) (amp w1 w2 : ℚ) : ℕ → ℚ × ℚ → List (ℤ × ℤ)
  | 0, _ => []
  | n + 1, (ph1, ph2) =>
    let a := amp * (1/2)
    let s := a * sinq ph1 + a * sinq ph2
    let ph1a := ph1 + w1
    let ph1n := if twoPiDouble < ph1a then ph1a - twoPiDouble else ph1a
    let ph2a := ph2 + w2
    let ph2n := if twoPiDouble < ph2a then ph2a - twoPiDouble else ph2a
    (toInt16 (lrint (s * 32767)), 0) :: fill_two_tone_iq sinq amp w1 w2 n (ph1n, ph2n)

/-- Modelled from the spec: `fill_two_tone_iq` with saturating storage. -/
def fill_two_tone_iq_saturated (sinq : ℚ → ℚ) (amp w1 w2 : ℚ) :
    ℕ → ℚ × ℚ → List (ℤ × ℤ)
  | 0, _ => []
  | n + 1, (ph1, ph2) =>
    let a := amp * (1/2)
    let s := a * sinq ph1 + a * sinq ph2
    let ph1a := ph1 + w1
    let ph1n := if twoPiDouble < ph1a then ph1a - twoPiDouble else ph1a
    let ph2a := ph2 + w2
    let ph2n := if twoPiDouble < ph2a then ph2a - twoPiDouble else ph2a
    (csat16 (lrint (s * 32767)), 0) ::
      fill_two_tone_iq_saturated sinq amp w1 w2 n (ph1n, ph2n)

theorem lrint_abs_le {v : ℚ} (h : |v| ≤ 32767) :
    -32767 ≤ lrint v ∧ lrint v ≤ 32767 := by
  rw [abs_le] at h
  exact ⟨le_lrint (by exact_mod_cast h.1), lrint_le (by exact_mod_cast h.2)⟩

theorem csat16_eq_self {z : ℤ} (h1 : -32768 ≤ z) (h2 : z ≤ 32767) :
    csat16 z = z := by
  unfold csat16
  rw [if_neg (by omega), if_neg (by omega)]

theorem noiseSample_fi_bound (s : ℕ) :
    |(((s &&& 65535 : ℕ) : ℚ) - 32768) / 32768| ≤ 1 := by
  have hle : (s &&& 65535) ≤ 65535 := Nat.and_le_right
  have hq : ((s &&& 65535 : ℕ) : ℚ) ≤ 65535 := by exact_mod_cast hle
  have hq0 : (0 : ℚ) ≤ ((s &&& 65535 : ℕ) : ℚ) := by positivity
  rw [abs_le]
  constructor
  · rw [le_div_iff (by norm_num : (0:ℚ) < 32768)]
    linarith
  · rw [div_le_iff (by norm_num : (0:ℚ) < 32768)]
    linarith

theorem noiseSample_no_wrap {amp : ℚ} (h0 : 0 ≤ amp) (h1 : amp ≤ 1) (s : ℕ) :
    noiseSample amp s = noiseSample_saturated amp s ∧
    -32767 ≤ noiseSample amp s ∧ noiseSample amp s ≤ 32767 := by
  have hfi := noiseSample_fi_bound s
  have hv : |amp * ((((s &&& 65535 : ℕ) : ℚ) - 32768) / 32768) * 32767| ≤ 32767 := by
    rw [abs_mul, abs_mul, abs_of_nonneg h0]
    have habs : |(32767 : ℚ)| = 32767 := by norm_num
    rw [habs]
    nlinarith [abs_nonneg ((((s &&& 65535 : ℕ) : ℚ) - 32768) / 32768)]
  obtain ⟨hl, hr⟩ := lrint_abs_le hv
  unfold noiseSample noiseSample_saturated
  rw [toInt16_eq_self (by omega) hr, csat16_eq_self (by omega) hr]
  exact ⟨rfl, by omega, hr⟩

theorem twoTone_s_bound {sinq : ℚ → ℚ} (hsin : ∀ x, |sinq x| ≤ 1)
    {amp : ℚ} (h0 : 0 ≤ amp) (h1 : amp ≤ 1) (ph1 ph2 : ℚ) :
    |(amp * (1/2) * sinq ph1 + amp * (1/2) * sinq ph2) * 32767| ≤ 32767 := by
  have hs1 := hsin ph1
  have hs2 := hsin ph2
  have hb : |amp * (1/2) * sinq ph1 + amp * (1/2) * sinq ph2| ≤ 1 := by
    calc |amp * (1/2) * sinq ph1 + amp * (1/2) * sinq ph2|
        ≤ |amp * (1/2) * sinq ph1| + |amp * (1/2) * sinq ph2| := abs_add _ _
      _ ≤ 1 := by
          rw [abs_mul, abs_mul, abs_mul, abs_mul, abs_of_nonneg h0]
          have h12 : |(1/2 : ℚ)| = 1/2 := by norm_num
          rw [h12]
          nlinarith [abs_nonneg (sinq ph1), abs_nonneg (sinq ph2)]
  rw [abs_mul]
  have h327 : |(32767 : ℚ)| = 32767 := by norm_num
  rw [h327]
  nlinarith [abs_nonneg (amp * (1/2) * sinq ph1 + amp * (1/2) * sinq ph2)]

/-- C7, amended: for every amplitude fraction within the documented range
[0, 1], every stored sample of the two-tone and noise generators is the
round-to-nearest value of the scaled floating-point sample and lies in
[-32767, 32767]; storage coincides with the spec's saturating storage, so
no wrap-around occurs.  (The code has no explicit clamp: for amplitudes
above 1 the `int16_t` cast wraps — see the counterexample.) -/
theorem generators_round_in_range_no_wrap
    (sinq : ℚ → ℚ) (hsin : ∀ x, |sinq x| ≤ 1)
    (amp : ℚ) (h0 : 0 ≤ amp) (h1 : amp ≤ 1) :
    (∀ w1 w2 n ph,
      fill_two_tone_iq sinq amp w1 w2 n ph =
        fill_two_tone_iq_saturated sinq amp w1 w2 n ph ∧
      ∀ p ∈ fill_two_tone_iq sinq amp w1 w2 n ph,
        (-32767 ≤ p.1 ∧ p.1 ≤ 32767) ∧ p.2 = 0) ∧
    (∀ n st,
      fill_noise_iq amp n st = fill_noise_iq_saturated amp n st ∧
      ∀ p ∈ (fill_noise_iq amp n st).1,
        (-32767 ≤ p.1 ∧ p.1 ≤ 32767) ∧ (-32767 ≤ p.2 ∧ p.2 ≤ 32767)) := by
  constructor
  · intro w1 w2 n
    induction n with
    | zero => intro ph; exact ⟨rfl, by intro p hp; simp [fill_two_tone_iq] at hp⟩
    | succ m ih =>
      intro ph
      obtain ⟨ph1, ph2⟩ := ph
      have hv := twoTone_s_bound hsin h0 h1 ph1 ph2
      obtain ⟨hl, hr⟩ := lrint_abs_le hv
      have ihh := ih
        ((if twoPiDouble < ph1 + w1 then ph1 + w1 - twoPiDouble else ph1 + w1),
         (if twoPiDouble < ph2 + w2 then ph2 + w2 - twoPiDouble else ph2 + w2))
      have heq := ihh.1
      have hmem := ihh.2
      constructor
      · show fill_two_tone_iq sinq amp w1 w2 (m+1) (ph1, ph2) = _
        simp only [fill_two_tone_iq, fill_two_tone_iq_saturated]
        rw [toInt16_eq_self (by omega) hr, csat16_eq_self (by omega) hr, heq]
      · intro p hp
        simp only [fill_two_tone_iq, List.mem_cons] at hp
        rcases hp with hp | hp
        · subst hp
          refine ⟨⟨?_, ?_⟩, rfl⟩
          · rw [toInt16_eq_self (by omega) hr]; omega
          · rw [toInt16_eq_self (by omega) hr]; omega
        · exact hmem p hp
  · intro n
    induction n with
    | zero => intro st; exact ⟨rfl, by intro p hp; simp [fill_noise_iq] at hp⟩
    | succ m ih =>
      intro st
      obtain ⟨s1, s2⟩ := st
      obtain ⟨heq1, hb1l, hb1r⟩ := noiseSample_no_wrap h0 h1 (xorshift32 s1)
      obtain ⟨heq2, hb2l, hb2r⟩ := noiseSample_no_wrap h0 h1 (xorshift32 s2)
      have heq := (ih ((xorshift32 s1), (xorshift32 s2))).1
      have hmem := (ih ((xorshift32 s1), (xorshift32 s2))).2
      constructor
      · show fill_noise_iq amp (m+1) (s1, s2) = _
        simp only [fill_noise_iq, fill_noise_iq_saturated]
        rw [heq1, heq2, heq]
      · intro p hp
        simp only [fill_noise_iq, List.mem_cons] at hp
        rcases hp with hp | hp
        · subst hp
          exact ⟨⟨hb1l, hb1r⟩, hb2l, hb2r⟩
        · exact hmem p hp

/-- Witness for C7 (amended): amplitude 0.70 with the zero sine oracle. -/
theorem generators_round_in_range_no_wrap_witness :
    (∀ x : ℚ, |(fun _ : ℚ => (0:ℚ)) x| ≤ 1) ∧ (0:ℚ) ≤ 7/10 ∧ (7:ℚ)/10 ≤ 1 ∧
    ((∀ w1 w2 n ph,
      fill_two_tone_iq (fun _ : ℚ => (0:ℚ)) (7/10) w1 w2 n ph =
        fill_two_tone_iq_saturated (fun _ : ℚ => (0:ℚ)) (7/10) w1 w2 n ph ∧
      ∀ p ∈ fill_two_tone_iq (fun _ : ℚ => (0:ℚ)) (7/10) w1 w2 n ph,
        (-32767 ≤ p.1 ∧ p.1 ≤ 32767) ∧ p.2 = 0) ∧
    (∀ n st,
      fill_noise_iq (7/10) n st = fill_noise_iq_saturated (7/10) n st ∧
      ∀ p ∈ (fill_noise_iq (7/10) n st).1,
        (-32767 ≤ p.1 ∧ p.1 ≤ 32767) ∧ (-32767 ≤ p.2 ∧ p.2 ≤ 32767))) :=
  ⟨fun x => by norm_num, by norm_num, by norm_num,
   generators_round_in_range_no_wrap (fun _ => 0) (fun x => by norm_num)
     (7/10) (by norm_num) (by norm_num)⟩

/-- C7, counterexample: the noise generator has no saturation.  With
amplitude 2.0 (accepted by the `--amp` parser) the very first sample's Q
value mathematically rounds to 49408, and the `int16_t` cast wraps it to
-16128 instead of clamping to 32767 — a stored sample produced by integer
wrap-around. -/
theorem fill_noise_amp2_wraps :
    (fill_noise_iq 2 1 (NOISE_SEED1, NOISE_SEED2)).1 = [(-19125, -16128)] ∧
    (fill_noise_iq_saturated 2 1 (NOISE_SEED1, NOISE_SEED2)).1 = [(-19125, 32767)] ∧
    ((-16128 : ℤ) ≠ 32767) ∧ toInt16 49408 ≠ (49408 : ℤ) := by
  have hx1 : xorshift32 NOISE_SEED1 = 2274908837 := by decide
  have hx2 : xorshift32 NOISE_SEED2 = 3476021377 := by decide
  have hn1 : (2274908837 &&& 65535 : ℕ) = 23205 := by decide
  have hn2 : (3476021377 &&& 65535 : ℕ) = 57473 := by decide
  have hs1 : noiseSample 2 2274908837 = -19125 := by
    unfold noiseSample
    rw [hn1]
    norm_num [lrint, toInt16]
  have hs2 : noiseSample 2 3476021377 = -16128 := by
    unfold noiseSample
    rw [hn2]
    norm_num [lrint, toInt16]
  have ht1 : noiseSample_saturated 2 2274908837 = -19125 := by
    unfold noiseSample_saturated
    rw [hn1]
    norm_num [lrint, csat16]
  have ht2 : noiseSample_saturated 2 3476021377 = 32767 := by
    unfold noiseSample_saturated
    rw [hn2]
    norm_num [lrint, csat16]
  refine ⟨?_, ?_, by decide, by decide⟩
  · show (fill_noise_iq 2 (0+1) (NOISE_SEED1, NOISE_SEED2)).1 = _
    simp only [fill_noise_iq, hx1, hx2, hs1, hs2]
  · show (fill_noise_iq_saturated 2 (0+1) (NOISE_SEED1, NOISE_SEED2)).1 = _
    simp only [fill_noise_iq_saturated, hx1, hx2, ht1, ht2]

/-! ## Nonzero preservation of the xorshift32 state (C10) -/

theorem xor_shiftLeft_mod_ne_zero {k x : ℕ} (hk : 0 < k) (hx : x ≠ 0)
    (hlt : x < 2 ^ 32) : x ^^^ ((x <<< k) % 2 ^ 32) ≠ 0 := by
  have hex : ∃ i, x.testBit i = true := by
    obtain ⟨i, hi, -⟩ := Nat.exists_most_significant_bit hx
    exact ⟨i, hi⟩
  have hbit : x.testBit (Nat.find hex) = true := Nat.find_spec hex
  have hmin : ∀ j, j < Nat.find hex → x.testBit j = false := by
    intro j hj
    have := Nat.find_min hex hj
    simpa using this
  have hi32 : Nat.find hex < 32 := by
    by_contra hge
    push_neg at hge
    have hxlt : x < 2 ^ Nat.find hex :=
      lt_of_lt_of_le hlt (Nat.pow_le_pow_right (by norm_num) hge)
    rw [Nat.testBit_lt_two_pow hxlt] at hbit
    exact Bool.false_ne_true hbit
  intro h0
  have hb := congrArg (fun y => y.testBit (Nat.find hex)) h0
  simp only [Nat.zero_testBit] at hb
  rw [Nat.testBit_xor, Nat.testBit_mod_two_pow, Nat.testBit_shiftLeft, hbit] at hb
  by_cases hik : k ≤ Nat.find hex
  · have hlow : x.testBit (Nat.find hex - k) = false := hmin _ (by omega)
    rw [hlow] at hb
    simp at hb
  · have : ¬ (Nat.find hex ≥ k) := hik
    simp [this] at hb

theorem xor_shiftRight_ne_zero {k x : ℕ} (hk : 0 < k) (hx : x ≠ 0) :
    x ^^^ (x >>> k) ≠ 0 := by
  obtain ⟨i, hbit, hmax⟩ := Nat.exists_most_significant_bit hx
  intro h0
  have hb := congrArg (fun y => y.testBit i) h0
  simp only [Nat.zero_testBit] at hb
  rw [Nat.testBit_xor, Nat.testBit_shiftRight, hbit, hmax (k + i) (by omega)] at hb
  simp at hb

theorem shiftRight_lt {x k n : ℕ} (h : x < n) : x >>> k < n := by
  rw [Nat.shiftRight_eq_div_pow]
  exact lt_of_le_of_lt (Nat.div_le_self x (2 ^ k)) h

theorem xorshift32_ne_zero_lt {x : ℕ} (hx : x ≠ 0) (hlt : x < 2 ^ 32) :
    xorshift32 x ≠ 0 ∧ xorshift32 x < 2 ^ 32 := by
  have h1ne : xs13 x ≠ 0 := xor_shiftLeft_mod_ne_zero (by norm_num) hx hlt
  have h1lt : xs13 x < 2 ^ 32 :=
    Nat.xor_lt_two_pow hlt (Nat.mod_lt _ (by norm_num))
  have h2lt : xs17 (xs13 x) < 2 ^ 32 := by
    unfold xs17
    exact Nat.xor_lt_two_pow h1lt (shiftRight_lt h1lt)
  have h2ne' : xs17 (xs13 x) ≠ 0 := by
    unfold xs17
    exact xor_shiftRight_ne_zero (k := 17) (by norm_num) h1ne
  constructor
  · show xs5 (xs17 (xs13 x)) ≠ 0
    unfold xs5
    exact xor_shiftLeft_mod_ne_zero (by norm_num) h2ne' h2lt
  · show xs5 (xs17 (xs13 x)) < 2 ^ 32
    unfold xs5
    exact Nat.xor_lt_two_pow h2lt (Nat.mod_lt _ (by norm_num))

/-- The xorshift32 state after `n` updates from seed `s`. -/
def xsIter : ℕ → ℕ → ℕ
  | 0, s => s
  | n + 1, s => xorshift32 (xsIter n s)

/-- C10: both channel states of the noise generator, seeded with
0x12345678 and 0x87654321, stay nonzero (and 32-bit) after every update,
and the states after any number of generated samples are exactly the
`xorshift32` iterates of the fixed seeds — so the I/Q noise streams are
fully determined by the seeds and never hit the degenerate all-zero
state. -/
theorem noise_states_nonzero :
    (∀ n, (xsIter n NOISE_SEED1 ≠ 0 ∧ xsIter n NOISE_SEED1 < 2 ^ 32) ∧
          (xsIter n NOISE_SEED2 ≠ 0 ∧ xsIter n NOISE_SEED2 < 2 ^ 32)) ∧
    (∀ amp n st, (fill_noise_iq amp n st).2 = (xsIter n st.1, xsIter n st.2)) := by
  constructor
  · intro n
    induction n with
    | zero =>
      refine ⟨⟨?_, ?_⟩, ⟨?_, ?_⟩⟩ <;> decide
    | succ m ih =>
      obtain ⟨⟨h1n, h1l⟩, h2n, h2l⟩ := ih
      exact ⟨xorshift32_ne_zero_lt h1n h1l, xorshift32_ne_zero_lt h2n h2l⟩
  · intro amp n
    induction n with
    | zero => intro st; rfl
    | succ m ih =>
      intro st
      obtain ⟨s1, s2⟩ := st
      show (fill_noise_iq amp (m + 1) (s1, s2)).2 = _
      simp only [fill_noise_iq]
      rw [ih (xorshift32 s1, xorshift32 s2)]
      show (xsIter m (xorshift32 s1), xsIter m (xorshift32 s2)) = _
      have hswap : ∀ (j : ℕ) (s : ℕ), xsIter j (xorshift32 s) = xsIter (j + 1) s := by
        intro j
        induction j with
        | zero => intro s; rfl
        | succ i ihj =>
          intro s
          show xorshift32 (xsIter i (xorshift32 s)) = _
          rw [ihj s]
          rfl
      rw [hswap m s1, hswap m s2]

/-! ## Gain ramp (tx_sine_nco.c, stream loop lines 269-313) -/

/-- State of the gain ramp across ticks: the fractional accumulator
`g_accum`, the last applied integer gain `g_last_applied`, whether further
ticks are enabled (`t_next` not yet set to `UINT64_MAX`), and the list of
hardware gain-set calls issued so far. -/
structure RampState where
  g_accum : ℚ
  g_last : ℤ
  enabled : Bool
  calls : List ℤ
deriving Repr

/-- One gain-ramp tick from tx_sine_nco.c (lines 289-310): accumulate
`step_db_f`, round (`llround`) and clamp to [0, 73], issue a hardware
gain-set call only if the rounded value changed, then — once the applied
gain has reached the target — snap exactly to the target and disable
further ticks (`t_next = UINT64_MAX`).  Hardware set calls are assumed to
succeed; the issued calls are recorded in `calls`. -/
def rampTick (target : ℤ) (step_db_f : ℚ) (st : RampState) : RampState :=
  if st.enabled = true then
    let acc := st.g_accum + step_db_f
    let g_int := clampi (llround acc) 0 73
    let last1 := if g_int = st.g_last then st.g_last else g_int
    let calls1 := if g_int = st.g_last then st.calls else st.calls ++ [g_int]
    if (0 ≤ step_db_f ∧ target ≤ last1) ∨ (step_db_f < 0 ∧ last1 ≤ target) then
      if last1 = target then ⟨acc, last1, false, calls1⟩
      else ⟨acc, target, false, calls1 ++ [target]⟩
    else ⟨acc, last1, true, calls1⟩
  else st

/-- The claim's scenario: start 0 dB, target 40 dB, duration 2000 ms,
interval 20 ms, hence `steps = 100` and `step_db_f = 40/100 = 2/5`;
state after `n` ticks. -/
def gainRampRun : ℕ → RampState
  | 0 => ⟨0, 0, true, []⟩
  | n + 1 => rampTick 40 (2/5) (gainRampRun n)

/-- Closed form of the applied gain after `k` ticks:
`llround(0.4 k) = (4k+5)/10`. -/
def rampAppliedAt (k : ℕ) : ℤ := (4 * (k : ℤ) + 5) / 10

/-- The hardware gain-set calls issued during the first `k` ticks:
1, 2, ..., `rampAppliedAt k`. -/
def rampCallsAt (k : ℕ) : List ℤ :=
  (List.range (rampAppliedAt k).toNat).map (fun j : ℕ => (j : ℤ) + 1)

theorem llround_ramp (k : ℕ) :
    llround ((2 * (k : ℚ) + 2) / 5) = (4 * (k : ℤ) + 9) / 10 := by
  unfold llround
  rw [if_neg (not_lt.mpr (by positivity))]
  have hrw : (2 * (k : ℚ) + 2) / 5 + 1/2 = ((4 * (k : ℤ) + 9 : ℤ) : ℚ) / ((10 : ℕ) : ℚ) := by
    push_cast
    ring
  rw [hrw, Rat.floor_intCast_div_natCast]
  norm_num

theorem rampCallsAt_succ_of_eq {k : ℕ}
    (h : rampAppliedAt (k + 1) = rampAppliedAt k) :
    rampCallsAt (k + 1) = rampCallsAt k := by
  unfold rampCallsAt
  rw [h]

theorem rampCallsAt_succ_of_ne {k : ℕ}
    (h : rampAppliedAt (k + 1) ≠ rampAppliedAt k) :
    rampCallsAt (k + 1) = rampCallsAt k ++ [rampAppliedAt (k + 1)] := by
  have h0 : (0 : ℤ) ≤ rampAppliedAt k := by unfold rampAppliedAt; omega
  have hstep : rampAppliedAt (k + 1) = rampAppliedAt k + 1 := by
    unfold rampAppliedAt at h ⊢
    omega
  unfold rampCallsAt
  rw [hstep]
  have htn : (rampAppliedAt k + 1).toNat = (rampAppliedAt k).toNat + 1 := by omega
  rw [htn, List.range_succ, List.map_append]
  simp only [List.map_cons, List.map_nil]
  congr 2

theorem rampAppliedAt_succ (m : ℕ) :
    rampAppliedAt (m + 1) = (4 * (m : ℤ) + 9) / 10 := by
  unfold rampAppliedAt
  congr 1

theorem rampTick_step_noChange {a : ℚ} {g : ℤ} {cs : List ℤ}
    (heq : clampi (llround (a + 2/5)) 0 73 = g) (hlt : g < 40) :
    rampTick 40 (2/5) ⟨a, g, true, cs⟩ = ⟨a + 2/5, g, true, cs⟩ := by
  have hnle : ¬ ((0 ≤ (2:ℚ)/5 ∧ (40:ℤ) ≤ g) ∨ ((2:ℚ)/5 < 0 ∧ g ≤ 40)) := by
    push_neg
    refine ⟨fun _ => by omega, fun hneg => absurd hneg (by norm_num)⟩
  simp only [rampTick, heq, if_pos rfl, if_true]
  rw [if_neg hnle]

theorem rampTick_step_change {a : ℚ} {g gNew : ℤ} {cs : List ℤ}
    (hval : clampi (llround (a + 2/5)) 0 73 = gNew) (hne : gNew ≠ g)
    (hlt : gNew < 40) :
    rampTick 40 (2/5) ⟨a, g, true, cs⟩ = ⟨a + 2/5, gNew, true, cs ++ [gNew]⟩ := by
  have hnle : ¬ ((0 ≤ (2:ℚ)/5 ∧ (40:ℤ) ≤ gNew) ∨ ((2:ℚ)/5 < 0 ∧ gNew ≤ 40)) := by
    push_neg
    refine ⟨fun _ => by omega, fun hneg => absurd hneg (by norm_num)⟩
  simp only [rampTick, hval, if_pos rfl, if_true, if_neg hne]
  rw [if_neg hnle]

theorem rampTick_step_target {a : ℚ} {g : ℤ} {cs : List ℤ}
    (hval : clampi (llround (a + 2/5)) 0 73 = 40) (hne : (40 : ℤ) ≠ g) :
    rampTick 40 (2/5) ⟨a, g, true, cs⟩ = ⟨a + 2/5, 40, false, cs ++ [40]⟩ := by
  have hle : (0 ≤ (2:ℚ)/5 ∧ (40:ℤ) ≤ 40) ∨ ((2:ℚ)/5 < 0 ∧ (40:ℤ) ≤ 40) :=
    Or.inl ⟨by norm_num, le_refl _⟩
  simp only [rampTick, hval, if_pos rfl, if_true, if_neg hne]
  rw [if_pos hle]

theorem gainRampRun_formula (k : ℕ) (hk : k ≤ 98) :
    gainRampRun k = ⟨(2 * (k : ℚ)) / 5, rampAppliedAt k, true, rampCallsAt k⟩ := by
  induction k with
  | zero =>
    show gainRampRun 0 = _
    have h1 : rampAppliedAt 0 = 0 := by decide
    have h2 : rampCallsAt 0 = [] := by
      unfold rampCallsAt
      rw [h1]
      rfl
    unfold gainRampRun
    rw [RampState.mk.injEq]
    exact ⟨by norm_num, h1.symm, rfl, h2.symm⟩
  | succ m ih =>
    have hm : m ≤ 98 := by omega
    have hrec := ih hm
    show rampTick 40 (2/5) (gainRampRun m) = _
    rw [hrec]
    have harg : (2 * (m : ℚ)) / 5 + 2/5 = (2 * (m : ℚ) + 2) / 5 := by ring
    have hll2 : llround ((2 * (m : ℚ)) / 5 + 2/5) = rampAppliedAt (m + 1) := by
      rw [harg, llround_ramp m, rampAppliedAt_succ m]
    have hcl : clampi (llround ((2 * (m : ℚ)) / 5 + 2/5)) 0 73 = rampAppliedAt (m + 1) := by
      rw [hll2, rampAppliedAt_succ m]
      unfold clampi
      rw [if_neg (by omega), if_neg (by omega)]
    have hltA : rampAppliedAt (m + 1) < 40 := by
      rw [rampAppliedAt_succ m]
      omega
    have hacc : (2 * (m : ℚ)) / 5 + 2/5 = (2 * ((m + 1 : ℕ) : ℚ)) / 5 := by
      push_cast
      ring
    by_cases hchg : rampAppliedAt (m + 1) = rampAppliedAt m
    · rw [rampTick_step_noChange (hchg ▸ hcl) (hchg ▸ hltA)]
      rw [RampState.mk.injEq]
      exact ⟨hacc, hchg.symm, rfl, (rampCallsAt_succ_of_eq hchg).symm⟩
    · rw [rampTick_step_change hcl hchg hltA]
      rw [RampState.mk.injEq]
      exact ⟨hacc, rfl, rfl, (rampCallsAt_succ_of_ne hchg).symm⟩

theorem gainRampRun_99 :
    gainRampRun 99 = ⟨198/5, 40, false, rampCallsAt 99⟩ := by
  show rampTick 40 (2/5) (gainRampRun 98) = _
  rw [gainRampRun_formula 98 (le_refl 98)]
  have h98 : rampAppliedAt 98 = 39 := by decide
  have h99 : rampAppliedAt 99 = 40 := by decide
  have harg : (2 * ((98 : ℕ) : ℚ)) / 5 + 2/5 = (2 * ((98:ℕ) : ℚ) + 2) / 5 := by ring
  have hll2 : llround ((2 * ((98 : ℕ) : ℚ)) / 5 + 2/5) = 40 := by
    rw [harg, llround_ramp 98]
    decide
  have hcl : clampi (llround ((2 * ((98 : ℕ) : ℚ)) / 5 + 2/5)) 0 73 = 40 := by
    rw [hll2]
    unfold clampi
    rw [if_neg (by omega), if_neg (by omega)]
  rw [rampTick_step_target hcl (by rw [h98]; omega)]
  rw [RampState.mk.injEq]
  refine ⟨by push_cast; norm_num, rfl, rfl, ?_⟩
  have hcalls : rampCallsAt 99 = rampCallsAt 98 ++ [rampAppliedAt 99] := by
    apply rampCallsAt_succ_of_ne
    rw [h99, h98]
    omega
  rw [hcalls, h99]

theorem rampTick_disabled (t : ℤ) (s : ℚ) (st : RampState)
    (h : st.enabled = false) : rampTick t s st = st := by
  unfold rampTick
  rw [h]
  simp

theorem gainRampRun_stable (m : ℕ) : gainRampRun (99 + m) = gainRampRun 99 := by
  induction m with
  | zero => rfl
  | succ j ih =>
    show rampTick 40 (2/5) (gainRampRun (99 + j)) = _
    rw [ih, gainRampRun_99]
    exact rampTick_disabled _ _ _ rfl

/-- C5: for the gain ramp with start 0 dB, target 40 dB, duration 2000 ms,
interval 20 ms (100 due ticks by the time the wall clock reaches 2000 ms),
after at least 100 ticks the last applied gain is exactly 40 with further
ramp ticks disabled; the hardware gain-set calls are exactly 1, 2, ..., 40
— one per change of the rounded value, never overshooting the target and
with no residual fractional drift. -/
theorem gainRamp_converges (n : ℕ) (h : 100 ≤ n) :
    (gainRampRun n).g_last = 40 ∧ (gainRampRun n).enabled = false ∧
    (gainRampRun n).calls = (List.range 40).map (fun j : ℕ => (j : ℤ) + 1) ∧
    ∀ g ∈ (gainRampRun n).calls, g ≤ 40 := by
  have hn : gainRampRun n = gainRampRun 99 := by
    have hsplit : n = 99 + (n - 99) := by omega
    rw [hsplit, gainRampRun_stable]
  have hc : rampCallsAt 99 = (List.range 40).map (fun j : ℕ => (j : ℤ) + 1) := by
    unfold rampCallsAt
    have h99 : rampAppliedAt 99 = 40 := by decide
    rw [h99]
    rfl
  rw [hn, gainRampRun_99]
  refine ⟨rfl, rfl, hc, fun g hg => ?_⟩
  simp only [hc] at hg
  simp only [List.mem_map, List.mem_range] at hg
  obtain ⟨j, hj, rfl⟩ := hg
  omega

/-- Witness for C5: exactly 100 ticks (wall clock 2000 ms). -/
theorem gainRamp_converges_witness :
    100 ≤ 100 ∧
    ((gainRampRun 100).g_last = 40 ∧ (gainRampRun 100).enabled = false ∧
     (gainRampRun 100).calls = (List.range 40).map (fun j : ℕ => (j : ℤ) + 1) ∧
     ∀ g ∈ (gainRampRun 100).calls, g ≤ 40) :=
  ⟨le_refl 100, gainRamp_converges 100 (le_refl 100)⟩

/-! ## Streaming engine control flow (tx_carrier.c `main`) -/

/-- Outcome of each vendor-library call of one run (the device/driver
behavior the program observes). -/
structure DevBehavior where
  ndev : ℕ
  openOk : Bool
  initOk : Bool
  resetOk : Bool
  enableOk : Bool
  srOk : Bool
  lpfOk : Bool
  gainOk : Bool
  loOk : Bool
  ncoFreqOk : Bool
  ncoIdxOk : Bool
  getNcoIdx : ℤ
  calOk : Bool
  setupOk : Bool
  startOk : Bool
  sendZeroOk : Bool
deriving Repr

/-- Device calls issued by tx_carrier.c `main`, in program order. -/
inductive DevEvent where
  | init
  | reset
  | enableCh (enabled : Bool)
  | setSampleRate
  | setLPF
  | setGain
  | setLO
  | setNCOFrequency
  | setNCOIndex
  | calibrate
  | setupStream
  | startStream
  | sendBuffer
  | sendZeroBuffer
  | stopStream
  | destroyStream
  | closeDevice
deriving DecidableEq, Repr

/-- The `cleanup:` label of tx_carrier.c (lines 209-231): if the stream
handle is set, push one zero buffer (result cast to void — `sendZeroOk` is
ignored), stop and destroy the stream; then disable the channel and close
the device; finally `return 0`. -/
def txCarrierCleanup (sendZeroOk : Bool) (handleSet : Bool) : List DevEvent :=
  (if handleSet then
    [DevEvent.sendZeroBuffer, DevEvent.stopStream, DevEvent.destroyStream]
   else []) ++
  [DevEvent.enableCh false, DevEvent.closeDevice]

/-- tx_carrier.c `main` as a device-call trace plus process exit code:
exit 1 only when no device is found or `LMS_Open` fails; every later
`CHECK` failure jumps to `cleanup:`, which ends in `return 0`.  After
setup, the loop pushes `pushes` buffers until cancellation, then runs the
cleanup path. -/
def txCarrierMain (d : DevBehavior) (pushes : ℕ) : List DevEvent × ℕ :=
  if d.ndev < 1 then ([], 1)
  else if d.openOk = false then ([], 1)
  else if d.initOk = false then
    ([DevEvent.init] ++ txCarrierCleanup d.sendZeroOk false, 0)
  else if d.resetOk = false then
    ([DevEvent.init, DevEvent.reset] ++ txCarrierCleanup d.sendZeroOk false, 0)
  else if d.enableOk = false then
    ([DevEvent.init, DevEvent.reset, DevEvent.enableCh true] ++
      txCarrierCleanup d.sendZeroOk false, 0)
  else if d.srOk = false then
    ([DevEvent.init, DevEvent.reset, DevEvent.enableCh true,
      DevEvent.setSampleRate] ++ txCarrierCleanup d.sendZeroOk false, 0)
  else if d.lpfOk = false then
    ([DevEvent.init, DevEvent.reset, DevEvent.enableCh true,
      DevEvent.setSampleRate, DevEvent.setLPF] ++
      txCarrierCleanup d.sendZeroOk false, 0)
  else if d.gainOk = false then
    ([DevEvent.init, DevEvent.reset, DevEvent.enableCh true,
      DevEvent.setSampleRate, DevEvent.setLPF, DevEvent.setGain] ++
      txCarrierCleanup d.sendZeroOk false, 0)
  else if d.loOk = false then
    ([DevEvent.init, DevEvent.reset, DevEvent.enableCh true,
      DevEvent.setSampleRate, DevEvent.setLPF, DevEvent.setGain,
      DevEvent.setLO] ++ txCarrierCleanup d.sendZeroOk false, 0)
  else if d.ncoFreqOk = false then
    ([DevEvent.init, DevEvent.reset, DevEvent.enableCh true,
      DevEvent.setSampleRate, DevEvent.setLPF, DevEvent.setGain,
      DevEvent.setLO, DevEvent.setNCOFrequency] ++
      txCarrierCleanup d.sendZeroOk false, 0)
  else if d.ncoIdxOk = false then
    ([DevEvent.init, DevEvent.reset, DevEvent.enableCh true,
      DevEvent.setSampleRate, DevEvent.setLPF, DevEvent.setGain,
      DevEvent.setLO, DevEvent.setNCOFrequency, DevEvent.setNCOIndex] ++
      txCarrierCleanup d.sendZeroOk false, 0)
  else if d.getNcoIdx < 0 then
    ([DevEvent.init, DevEvent.reset, DevEvent.enableCh true,
      DevEvent.setSampleRate, DevEvent.setLPF, DevEvent.setGain,
      DevEvent.setLO, DevEvent.setNCOFrequency, DevEvent.setNCOIndex] ++
      txCarrierCleanup d.sendZeroOk false, 0)
  else if d.calOk = false then
    ([DevEvent.init, DevEvent.reset, DevEvent.enableCh true,
      DevEvent.setSampleRate, DevEvent.setLPF, DevEvent.setGain,
      DevEvent.setLO, DevEvent.setNCOFrequency, DevEvent.setNCOIndex,
      DevEvent.calibrate] ++ txCarrierCleanup d.sendZeroOk false, 0)
  else if d.setupOk = false then
    ([DevEvent.init, DevEvent.reset, DevEvent.enableCh true,
      DevEvent.setSampleRate, DevEvent.setLPF, DevEvent.setGain,
      DevEvent.setLO, DevEvent.setNCOFrequency, DevEvent.setNCOIndex,
      DevEvent.calibrate, DevEvent.setupStream] ++
      txCarrierCleanup d.sendZeroOk false, 0)
  else if d.startOk = false then
    ([DevEvent.init, DevEvent.reset, DevEvent.enableCh true,
      DevEvent.setSampleRate, DevEvent.setLPF, DevEvent.setGain,
      DevEvent.setLO, DevEvent.setNCOFrequency, DevEvent.setNCOIndex,
      DevEvent.calibrate, DevEvent.setupStream, DevEvent.startStream] ++
      txCarrierCleanup d.sendZeroOk true, 0)
  else
    ([DevEvent.init, DevEvent.reset, DevEvent.enableCh true,
      DevEvent.setSampleRate, DevEvent.setLPF, DevEvent.setGain,
      DevEvent.setLO, DevEvent.setNCOFrequency, DevEvent.setNCOIndex,
      DevEvent.calibrate, DevEvent.setupStream, DevEvent.startStream] ++
      List.replicate pushes DevEvent.sendBuffer ++
      txCarrierCleanup d.sendZeroOk true, 0)

/-- tx_carrier.c line 106: `--tx-gain` parsing.  An out-of-range value
prints a warning (`true` in the first component) but, unlike every other
option, does not `return 1`: the parsed value is kept and the program
continues. -/
def txGainParse (g : ℤ) : Bool × ℤ := (decide (g < 0 ∨ 73 < g), g)

/-- The all-successful device behavior, with the cleanup zero-push result
a parameter. -/
def devAllOk (szOk : Bool) : DevBehavior :=
  ⟨1, true, true, true, true, true, true, true, true, true, true, 0, true,
   true, true, szOk⟩

/-- Device behavior where `LMS_Init` (the first configuration call after
open) fails. -/
def devInitFails : DevBehavior :=
  ⟨1, true, false, true, true, true, true, true, true, true, true, 0, true,
   true, true, true⟩

/-- C6: on cancellation after `n` successful pushes, exactly one
additional zero-filled buffer is pushed, then the stream is stopped and
destroyed, the channel disabled and the device closed, and the process
exits 0; the zero-push result is ignored, so a failing zero-push changes
nothing in the teardown. -/
theorem cancel_shutdown_trace (szOk : Bool) (n : ℕ) :
    txCarrierMain (devAllOk szOk) n =
      ([DevEvent.init, DevEvent.reset, DevEvent.enableCh true,
        DevEvent.setSampleRate, DevEvent.setLPF, DevEvent.setGain,
        DevEvent.setLO, DevEvent.setNCOFrequency, DevEvent.setNCOIndex,
        DevEvent.calibrate, DevEvent.setupStream, DevEvent.startStream] ++
        List.replicate n DevEvent.sendBuffer ++
        [DevEvent.sendZeroBuffer, DevEvent.stopStream, DevEvent.destroyStream,
         DevEvent.enableCh false, DevEvent.closeDevice], 0) ∧
    (txCarrierMain (devAllOk szOk) n).1.count DevEvent.sendZeroBuffer = 1 ∧
    txCarrierMain (devAllOk false) n = txCarrierMain (devAllOk true) n := by
  have htr : ∀ b : Bool, txCarrierMain (devAllOk b) n =
      ([DevEvent.init, DevEvent.reset, DevEvent.enableCh true,
        DevEvent.setSampleRate, DevEvent.setLPF, DevEvent.setGain,
        DevEvent.setLO, DevEvent.setNCOFrequency, DevEvent.setNCOIndex,
        DevEvent.calibrate, DevEvent.setupStream, DevEvent.startStream] ++
        List.replicate n DevEvent.sendBuffer ++
        [DevEvent.sendZeroBuffer, DevEvent.stopStream, DevEvent.destroyStream,
         DevEvent.enableCh false, DevEvent.closeDevice], 0) := by
    intro b
    simp [txCarrierMain, txCarrierCleanup, devAllOk]
  refine ⟨htr szOk, ?_, (htr false).trans (htr true).symm⟩
  rw [htr szOk]
  simp [List.count_append, List.count_replicate, List.count_cons]

/-- C4 (code bug): the claim says exit code 1 on any setup failure and on a
malformed `--tx-gain`.  The code disagrees twice: (a) when `LMS_Init` (or
any later `CHECK`-ed configuration call) fails after a successful open, the
`goto cleanup` path ends in `return 0`, so the process exits 0, not 1;
(b) an out-of-range `--tx-gain 99` only prints a warning and keeps the
value — no exit at all.  Exit 1 is produced only before the device is
opened (no device found, open failure, other malformed arguments). -/
theorem txCarrier_setup_failure_exit_zero :
    txCarrierMain devInitFails 0 =
      ([DevEvent.init, DevEvent.enableCh false, DevEvent.closeDevice], 0) ∧
    (txCarrierMain devInitFails 0).2 ≠ 1 ∧
    txGainParse 99 = (true, 99) ∧
    (txCarrierMain { devInitFails with ndev := 0 } 0).2 = 1 := by
  have htr : txCarrierMain devInitFails 0 =
      ([DevEvent.init, DevEvent.enableCh false, DevEvent.closeDevice], 0) := by
    simp [txCarrierMain, txCarrierCleanup, devInitFails]
  refine ⟨htr, ?_, by decide, ?_⟩
  · rw [htr]
    decide
  · simp [txCarrierMain, devInitFails]

/-! ## Rotating-tone generator (tx_ssb2.c rotator loop, lines 452-470) -/

/-- One sample step of the tx_ssb2.c rotator: multiply `u = (ur, ui)` by
the coefficient `w = (wr, wi)`; on sample indices `i` with
`i % 1024 = 1023`, renormalize by one Newton step
`k = 1.5 - 0.5 * (ur² + ui²)`. -/
def rotStep (wr wi : ℚ) (n : ℕ) (u : ℚ × ℚ) : ℚ × ℚ :=
  let nr := u.1 * wr - u.2 * wi
  let ni := u.1 * wi + u.2 * wr
  if n % 1024 = 1023 then
    let r2 := nr * nr + ni * ni
    let k := 3/2 - r2/2
    (nr * k, ni * k)
  else (nr, ni)

/-- The rotator state after `n` samples, starting from `u = (1, 0)`
(`ur = 1.0, ui = 0.0` in the source).  The global sample index is used for
the renormalization schedule: the buffer size 8192 is a multiple of 1024,
so `i & 1023` in the per-buffer loop equals the global index mod 1024. -/
def rotState (wr wi : ℚ) : ℕ → ℚ × ℚ
  | 0 => (1, 0)
  | n + 1 => rotStep wr wi n (rotState wr wi n)

/-- Squared magnitude `ur² + ui²` of the rotator. -/
def magSq (u : ℚ × ℚ) : ℚ := u.1 * u.1 + u.2 * u.2

theorem magSq_rotStep (wr wi : ℚ) (n : ℕ) (u : ℚ × ℚ) :
    magSq (rotStep wr wi n u) =
      if n % 1024 = 1023 then
        (magSq u * (wr * wr + wi * wi)) *
          (3/2 - (magSq u * (wr * wr + wi * wi))/2) ^ 2
      else magSq u * (wr * wr + wi * wi) := by
  unfold rotStep magSq
  split
  · ring
  · ring

theorem rot_pow_up (r : ℚ) (hup : r ≤ 1 + 1/2^50) (hlow : 1 - 1/2^50 ≤ r) :
    ∀ k : ℕ, k ≤ 1024 → r ^ k ≤ 1 + 2 * (k : ℚ) / 2^50 := by
  intro k
  induction k with
  | zero => intro _; norm_num
  | succ j ih =>
    intro hj
    have hj' : j ≤ 1024 := by omega
    have hih := ih hj'
    have hr0 : (0 : ℚ) ≤ r := by
      have : (0 : ℚ) < 1 - 1/2^50 := by norm_num
      linarith
    have hpow0 : (0 : ℚ) ≤ r ^ j := pow_nonneg hr0 j
    have hjq : (j : ℚ) ≤ 1024 := by exact_mod_cast hj'
    have hstep : r ^ (j + 1) = r ^ j * r := pow_succ r j
    rw [hstep]
    have hb : r ^ j * r ≤ (1 + 2 * (j : ℚ) / 2^50) * (1 + 1/2^50) := by
      apply mul_le_mul hih hup hr0
      positivity
    refine hb.trans ?_
    have hc : ((j : ℚ) + 1) = ((j + 1 : ℕ) : ℚ) := by push_cast; ring
    nlinarith [hjq]

theorem rot_pow_low (r : ℚ) (hlow : 1 - 1/2^50 ≤ r) :
    ∀ k : ℕ, k ≤ 1024 → 1 - (k : ℚ) / 2^50 ≤ r ^ k := by
  intro k
  induction k with
  | zero => intro _; norm_num
  | succ j ih =>
    intro hj
    have hj' : j ≤ 1024 := by omega
    have hih := ih hj'
    have hjq : (j : ℚ) ≤ 1024 := by exact_mod_cast hj'
    have hpos : (0 : ℚ) < 1 - (j : ℚ) / 2^50 := by
      nlinarith [hjq]
    have hr0 : (0 : ℚ) ≤ 1 - 1/2^50 := by norm_num
    have hstep : r ^ (j + 1) = r ^ j * r := pow_succ r j
    rw [hstep]
    have hb : (1 - (j : ℚ) / 2^50) * (1 - 1/2^50) ≤ r ^ j * r := by
      apply mul_le_mul hih hlow hr0 (le_trans hpos.le hih)
    refine le_trans ?_ hb
    push_cast
    nlinarith [hjq]

theorem rot_mod_eq (m k : ℕ) (hk : k < 1024) : (1024 * m + k) % 1024 = k := by
  rw [Nat.mul_add_mod]
  exact Nat.mod_eq_of_lt hk

theorem rot_formula (wr wi : ℚ) (m : ℕ) :
    ∀ k : ℕ, k ≤ 1023 →
      magSq (rotState wr wi (1024 * m + k)) =
        magSq (rotState wr wi (1024 * m)) * (wr * wr + wi * wi) ^ k := by
  intro k
  induction k with
  | zero => intro _; simp
  | succ j ih =>
    intro hj
    have hj' : j ≤ 1023 := by omega
    have hidx : 1024 * m + (j + 1) = (1024 * m + j) + 1 := by ring
    rw [hidx]
    show magSq (rotStep wr wi (1024 * m + j) (rotState wr wi (1024 * m + j))) = _
    rw [magSq_rotStep]
    rw [if_neg (by rw [rot_mod_eq m j (by omega)]; omega)]
    rw [ih hj', pow_succ]
    ring

theorem rot_block (wr wi : ℚ) (m : ℕ) :
    magSq (rotState wr wi (1024 * (m + 1))) =
      (magSq (rotState wr wi (1024 * m)) * (wr * wr + wi * wi) ^ 1024) *
        (3/2 - (magSq (rotState wr wi (1024 * m)) *
          (wr * wr + wi * wi) ^ 1024)/2) ^ 2 := by
  have hidx : 1024 * (m + 1) = (1024 * m + 1023) + 1 := by ring
  rw [hidx]
  show magSq (rotStep wr wi (1024 * m + 1023) (rotState wr wi (1024 * m + 1023))) = _
  rw [magSq_rotStep, if_pos (rot_mod_eq m 1023 (by omega))]
  rw [rot_formula wr wi m 1023 (le_refl 1023)]
  have hmul : magSq (rotState wr wi (1024 * m)) * (wr * wr + wi * wi) ^ 1023 *
      (wr * wr + wi * wi) =
      magSq (rotState wr wi (1024 * m)) * (wr * wr + wi * wi) ^ 1024 := by
    rw [mul_assoc, ← pow_succ]
  rw [hmul]

theorem newton_contract (x : ℚ) (hx : |x - 1| ≤ 1/2^28) :
    |x * (3/2 - x/2) ^ 2 - 1| ≤ 1/2^29 := by
  obtain ⟨h1, h2⟩ := abs_le.mp hx
  have he2 : (x - 1)^2 ≤ 1/2^56 := by nlinarith
  rw [abs_le]
  constructor <;> nlinarith [sq_nonneg (x - 1), he2]

theorem rot_mid_bound (S rk : ℚ) (hS : |S - 1| ≤ 1/2^29)
    (h1 : 1 - 1024/2^50 ≤ rk) (h2 : rk ≤ 1 + 2048/2^50) :
    |S * rk - 1| ≤ 1/2^28 := by
  obtain ⟨a1, a2⟩ := abs_le.mp hS
  rw [abs_le]
  constructor <;> nlinarith

theorem rot_inv (wr wi : ℚ) (hr : |wr * wr + wi * wi - 1| ≤ 1/2^50) :
    ∀ m : ℕ, |magSq (rotState wr wi (1024 * m)) - 1| ≤ 1/2^29 := by
  have habs := abs_le.mp hr
  have hup : wr * wr + wi * wi ≤ 1 + 1/2^50 := by linarith [habs.2]
  have hlow : 1 - 1/2^50 ≤ wr * wr + wi * wi := by linarith [habs.1]
  intro m
  induction m with
  | zero =>
    show |magSq (rotState wr wi (1024 * 0)) - 1| ≤ _
    norm_num [rotState, magSq]
  | succ j ih =>
    rw [rot_block wr wi j]
    apply newton_contract
    apply rot_mid_bound _ _ ih
    · have h := rot_pow_low (wr * wr + wi * wi) hlow 1024 (le_refl 1024)
      have hc : ((1024 : ℕ) : ℚ) = 1024 := by norm_num
      rw [hc] at h
      exact h
    · have h := rot_pow_up (wr * wr + wi * wi) hup hlow 1024 (le_refl 1024)
      have hc : ((1024 : ℕ) : ℚ) = 1024 := by norm_num
      rw [hc] at h
      calc (wr * wr + wi * wi) ^ 1024 ≤ 1 + 2 * 1024 / 2^50 := h
        _ = 1 + 2048 / 2^50 := by norm_num

/-- C9: for any rotator coefficient `w = (wr, wi)` whose squared magnitude
is within 2^-50 of 1 (satisfied by the double-precision
`(cos step, sin step)` pair of the source), the per-sample complex
multiplication with the Newton renormalization every 1024 samples keeps
the rotator magnitude within [0.999, 1.001] — equivalently `|u|²` within
[0.999², 1.001²] — at every sample index, in particular over a run of
10^6 samples and beyond. -/
theorem rotator_magnitude_stable (wr wi : ℚ)
    (hr : |wr * wr + wi * wi - 1| ≤ 1/2^50) (n : ℕ) :
    (999/1000) ^ 2 ≤ magSq (rotState wr wi n) ∧
    magSq (rotState wr wi n) ≤ (1001/1000) ^ 2 := by
  have habs := abs_le.mp hr
  have hup : wr * wr + wi * wi ≤ 1 + 1/2^50 := by linarith [habs.2]
  have hlow : 1 - 1/2^50 ≤ wr * wr + wi * wi := by linarith [habs.1]
  have hm := rot_inv wr wi hr (n / 1024)
  have hk : n % 1024 ≤ 1023 := by omega
  have hk' : n % 1024 ≤ 1024 := by omega
  have hrlow := rot_pow_low (wr * wr + wi * wi) hlow (n % 1024) hk'
  have hrup := rot_pow_up (wr * wr + wi * wi) hup hlow (n % 1024) hk'
  have hkq : ((n % 1024 : ℕ) : ℚ) ≤ 1024 := by exact_mod_cast hk'
  have hrlow' : 1 - 1024/2^50 ≤ (wr * wr + wi * wi) ^ (n % 1024) := by
    refine le_trans ?_ hrlow
    nlinarith [hkq]
  have hrup' : (wr * wr + wi * wi) ^ (n % 1024) ≤ 1 + 2048/2^50 := by
    refine hrup.trans ?_
    nlinarith [hkq]
  have hdec : 1024 * (n / 1024) + n % 1024 = n := Nat.div_add_mod n 1024
  have hform := rot_formula wr wi (n / 1024) (n % 1024) hk
  rw [hdec] at hform
  rw [hform]
  have hb := rot_mid_bound _ _ hm hrlow' hrup'
  obtain ⟨b1, b2⟩ := abs_le.mp hb
  constructor
  · nlinarith
  · nlinarith

/-- Witness for C9: the exact-unit coefficient `w = (1, 0)` at sample 0. -/
theorem rotator_magnitude_stable_witness :
    |(1:ℚ) * 1 + 0 * 0 - 1| ≤ 1/2^50 ∧
    ((999/1000 : ℚ) ^ 2 ≤ magSq (rotState 1 0 0) ∧
     magSq (rotState 1 0 0) ≤ (1001/1000) ^ 2) :=
  ⟨by norm_num, rotator_magnitude_stable 1 0 (by norm_num) 0⟩
